import Mathlib

/-!
Verification of the OCR-versus-document checking program (one Python file).

Strings are modelled as lists of Unicode code points (`List Nat`), which is
exactly what a Python 3 `str` is: a sequence of code points.  The character
classes of the regular expressions (`\w`, `\s`) and lowercasing are modelled
on the repertoire the program actually handles: ASCII plus CJK unified
ideographs.  Every definition below is translated from `src/__main__.py`
except the similarity metric `fuzz_ratio`, which is third-party library code
(fuzzywuzzy) and is modelled from its documented definition.
-/

/-- A Python string: a sequence of Unicode code points. -/
abbrev PyStr := List Nat

/-- The regex class `\s` (whitespace), on the ASCII repertoire:
space, tab, newline, vertical tab, form feed, carriage return. -/
def isSpaceCp (n : Nat) : Bool :=
  n = 32 || n = 9 || n = 10 || n = 11 || n = 12 || n = 13

/-- The regex class `\w` (word character), Unicode-aware, on the modelled
repertoire: ASCII digits, ASCII letters, underscore, the Latin-1 letters
U+00C0 to U+00FF (excluding the multiplication and division signs U+00D7
and U+00F7), the Latin capital letter I with dot above U+0130, and CJK
unified ideographs (U+4E00 to U+9FFF).  The combining dot above U+0307 is
deliberately not a word character: it has category Mn, which the `re`
module does not match with `\w`.  Scripts with context-sensitive
lowercasing (such as Greek with its final sigma) are outside the modelled
repertoire. -/
def isWordCp (n : Nat) : Bool :=
  decide ((48 ≤ n ∧ n ≤ 57) ∨ (65 ≤ n ∧ n ≤ 90) ∨ (97 ≤ n ∧ n ≤ 122) ∨
    n = 95 ∨ (0xC0 ≤ n ∧ n ≤ 0xFF ∧ n ≠ 0xD7 ∧ n ≠ 0xF7) ∨ n = 0x130 ∨
    (0x4E00 ≤ n ∧ n ≤ 0x9FFF))

/-- Simple one-to-one case folding, as used by `re.IGNORECASE` when
matching the ASCII pattern "zhaxgui": ASCII A-Z and the Latin-1 uppercase
letters fold down by 32, and U+0130 has the simple lowercase mapping
U+0069 of the Unicode character database.  This per-character folding is
distinct from the full `str.lower` mapping `lowerCps` below, which can
expand a character to several code points. -/
def foldCp (n : Nat) : Nat :=
  if (65 ≤ n ∧ n ≤ 90) ∨ (0xC0 ≤ n ∧ n ≤ 0xDE ∧ n ≠ 0xD7) then n + 32
  else if n = 0x130 then 0x69
  else n

/-- The single-code-point part of Python `str.lower` on the modelled
repertoire: ASCII A-Z and the Latin-1 uppercase letters U+00C0 to U+00DE
(excluding U+00D7) map down by 32; every other code point is unchanged. -/
def lower1 (n : Nat) : Nat :=
  if (65 ≤ n ∧ n ≤ 90) ∨ (0xC0 ≤ n ∧ n ≤ 0xDE ∧ n ≠ 0xD7) then n + 32
  else n

/-- Python `str.lower` as a code-point-to-string mapping.  `str.lower` is
not one-to-one on code points: U+0130 (Latin capital letter I with dot
above) lowers to the two code points U+0069 U+0307 ("i" followed by the
combining dot above).  Every other modelled code point lowers via
`lower1`. -/
def lowerCps (n : Nat) : List Nat :=
  if n = 0x130 then [0x69, 0x307] else [lower1 n]

/-- Python `str.strip`: drop whitespace from both ends. -/
def trim (s : PyStr) : PyStr :=
  ((s.dropWhile isSpaceCp).reverse.dropWhile isSpaceCp).reverse

/-- `preprocess_text` (src/__main__.py lines 19-23):
remove every character that is neither a word character nor whitespace
(`re.sub(r"[^\w\s]", "", text)`), lowercase, strip, then delete all
remaining whitespace (`re.sub(r"\s+", "", text)`).  Note the order: the
`[^\w\s]` removal runs before lowering, so a non-word character produced
by lowering (the combining dot that `str.lower` emits for U+0130)
survives this pass and is only removed by a second application. -/
def preprocess_text (s : PyStr) : PyStr :=
  (trim (((s.filter (fun n => isWordCp n || isSpaceCp n)).map lowerCps).flatten)).filter
    (fun n => !(isSpaceCp n))

/-- First OCR-correction rule, the regex substitution
`re.sub("照[贵櫃]", "昭贵", text, flags=IGNORECASE)`:
U+7167 followed by U+8D35 or U+6AC3 becomes U+662D U+8D35.
The scan is left to right with non-overlapping matches, as `re.sub` does;
IGNORECASE has no effect on CJK ideographs. -/
def subst1 : PyStr → PyStr
  | a :: b :: rest =>
      if a = 0x7167 && (b = 0x8D35 || b = 0x6AC3) then
        0x662D :: 0x8D35 :: subst1 rest
      else
        a :: subst1 (b :: rest)
  | s => s

/-- Second OCR-correction rule, `re.sub("股贵", "昭贵", text, flags=IGNORECASE)`:
U+80A1 U+8D35 becomes U+662D U+8D35. -/
def subst2 : PyStr → PyStr
  | a :: b :: rest =>
      if a = 0x80A1 && b = 0x8D35 then
        0x662D :: 0x8D35 :: subst2 rest
      else
        a :: subst2 (b :: rest)
  | s => s

/-- The pattern "zhaxgui" as code points. -/
def zhaxguiP : PyStr := [122, 104, 97, 120, 103, 117, 105]

/-- The replacement "zhaogui" as code points. -/
def zhaoguiR : PyStr := [122, 104, 97, 111, 103, 117, 105]

/-- Third OCR-correction rule, `re.sub("zhaxgui", "zhaogui", text, flags=IGNORECASE)`:
a case-insensitive occurrence of "zhaxgui" becomes "zhaogui". -/
def subst3 : PyStr → PyStr
  | [] => []
  | a :: rest =>
      if ((a :: rest).take 7).map foldCp = zhaxguiP then
        zhaoguiR ++ subst3 (rest.drop 6)
      else
        a :: subst3 rest
termination_by s => s.length
decreasing_by
  · simp only [List.length_cons, List.length_drop]
    omega
  · simp only [List.length_cons]
    omega

/-- `correct_ocr_errors` (src/__main__.py lines 9-17): the three substitution
rules applied in the fixed order of the `error_map` dict. -/
def correct_ocr_errors (s : PyStr) : PyStr :=
  subst3 (subst2 (subst1 s))

/-- Longest-common-subsequence length with explicit fuel; fuel
`x.length + y.length` always suffices since every step consumes a
character from one of the two lists. -/
def lcsAux : Nat → PyStr → PyStr → Nat
  | 0, _, _ => 0
  | _ + 1, [], _ => 0
  | _ + 1, _ :: _, [] => 0
  | fuel + 1, a :: as, b :: bs =>
      if a = b then lcsAux fuel as bs + 1
      else max (lcsAux fuel (a :: as) bs) (lcsAux fuel as (b :: bs))

/-- The number of matching characters between two strings, as found by a
sequence-matching algorithm: the length of a longest common subsequence. -/
def lcsLen (x y : PyStr) : Nat := lcsAux (x.length + y.length) x y

/-- Modelled from the spec: `fuzz.ratio` of the fuzzywuzzy library, which is
not part of this repository.  The spec gives the standard definition
`100 * (2*M) / (|a| + |b|)` with `M` the number of matching characters found
by a sequence matcher; two empty strings score 100.  Rounding to an integer
is modelled as floor division. -/
def fuzz_ratio (a b : PyStr) : Nat :=
  if a.length + b.length = 0 then 100
  else (200 * lcsLen a b) / (a.length + b.length)

/-- The Python slice `doc_text[i : i + L]`. -/
def windowAt (r : PyStr) (i L : Nat) : PyStr := (r.drop i).take L

/-- The similarity score of the window of `r` starting at `i`, of the
length of `q`: `fuzz.ratio(ocr_line, doc_text[i:i+window_size])`. -/
def winScore (q r : PyStr) (i : Nat) : Nat :=
  fuzz_ratio q (windowAt r i q.length)

/-- The scanning loop of `sliding_window_match` (src/__main__.py lines 61-68):
`fuel` iterations remain, the current start index is `i`, and `best` is
`best_score` so far.  Each iteration scores the current window, updates the
best score, and returns early when the score reaches the threshold;
when the loop ends it returns `(best_score >= threshold, "", best_score)`. -/
def swm_scan (q r : PyStr) (t best i fuel : Nat) : Bool × PyStr × Nat :=
  match fuel with
  | 0 => (decide (t ≤ best), [], best)
  | f + 1 =>
      let w := windowAt r i q.length
      let s := fuzz_ratio q w
      if t ≤ s then (true, w, s)
      else swm_scan q r t (if best < s then s else best) (i + 1) f

/-- `sliding_window_match` (src/__main__.py lines 52-68): window size is the
query length; `max_start = len(doc_text) - window_size`; if `max_start < 0`
return `(False, "", 0)`; otherwise scan start indices `0 .. max_start`. -/
def sliding_window_match (q r : PyStr) (t : Nat) : Bool × PyStr × Nat :=
  if r.length < q.length then (false, [], 0)
  else swm_scan q r t 0 0 (r.length - q.length + 1)

/-- Maximum window score over `fuel` consecutive start indices from `i`
(0 when there are none). -/
def maxWinScore (q r : PyStr) (i fuel : Nat) : Nat :=
  match fuel with
  | 0 => 0
  | f + 1 => max (winScore q r i) (maxWinScore q r (i + 1) f)

/-- The document loop of `text_exists_in_any_doc` (src/__main__.py
lines 47-50): test the documents in order, stopping at the first match. -/
def anyDocMatches (proc : PyStr) (docs : List PyStr) (t : Nat) : Bool :=
  match docs with
  | [] => false
  | d :: rest =>
      if (sliding_window_match proc d t).1 then true
      else anyDocMatches proc rest t

/-- `text_exists_in_any_doc` (src/__main__.py lines 42-50): queries shorter
than 2 characters are treated as present; otherwise the corpus documents
are scanned in order. -/
def text_exists_in_any_doc (proc : PyStr) (docs : List PyStr) (t : Nat) : Bool :=
  if proc.length < 2 then true
  else anyDocMatches proc docs t

/-- The separator marker of `load_all_documents`: a run of 23 dashes
(`"-----------------------"`). -/
def sepMarker : PyStr := List.replicate 23 45

/-- Python `" ".join`: concatenate with a single space (code point 32)
between consecutive elements. -/
def joinWithSpace : List PyStr → PyStr
  | [] => []
  | [p] => p
  | p :: q :: rest => p ++ 32 :: joinWithSpace (q :: rest)

/-- The per-document aggregation of `load_all_documents` (src/__main__.py
lines 33-39): keep the paragraphs whose stripped text is non-empty and whose
raw text does not start with the separator marker, take their stripped
texts, join with a single space, and preprocess the result. -/
def load_doc_text (paras : List PyStr) : PyStr :=
  preprocess_text (joinWithSpace
    ((paras.filter
        (fun p => !(trim p).isEmpty && !(sepMarker.isPrefixOf p))).map trim))

/-- Written from the claim, for comparison with `load_doc_text`: the
surviving paragraphs, in document order, are exactly the trimmed forms of
those paragraphs that are non-empty after trimming and do not start with
the repeated-dash separator marker. -/
def survivors : List PyStr → List PyStr
  | [] => []
  | p :: rest =>
      if trim p ≠ [] ∧ ¬ (sepMarker.isPrefixOf p = true) then
        trim p :: survivors rest
      else survivors rest

/-! ### Character-class lemmas -/

theorem lower1_of_space (n : Nat) (h : isSpaceCp n = true) : lower1 n = n := by
  unfold isSpaceCp at h
  simp only [Bool.or_eq_true, decide_eq_true_eq] at h
  unfold lower1
  rw [if_neg (by omega)]

theorem lower1_props (m : Nat) (hw : isWordCp m = true) (h130 : m ≠ 0x130) :
    isWordCp (lower1 m) = true ∧ lower1 m ≠ 0x130 ∧
      lower1 (lower1 m) = lower1 m := by
  unfold isWordCp at hw
  rw [decide_eq_true_eq] at hw
  unfold lower1
  by_cases hc : (65 ≤ m ∧ m ≤ 90) ∨ (0xC0 ≤ m ∧ m ≤ 0xDE ∧ m ≠ 0xD7)
  · rw [if_pos hc, if_neg (by omega)]
    refine ⟨?_, by omega, rfl⟩
    unfold isWordCp
    rw [decide_eq_true_eq]
    omega
  · rw [if_neg hc]
    refine ⟨?_, h130, by rw [if_neg hc]⟩
    unfold isWordCp
    rw [decide_eq_true_eq]
    omega

/-! ### preprocess_text lemmas -/

theorem mem_of_mem_trim {x : Nat} {s : PyStr} (h : x ∈ trim s) : x ∈ s := by
  unfold trim at h
  rw [List.mem_reverse] at h
  have h2 := (List.dropWhile_sublist isSpaceCp).mem h
  rw [List.mem_reverse] at h2
  exact (List.dropWhile_sublist isSpaceCp).mem h2

theorem dropWhile_eq_self_of {p : Nat → Bool} {l : PyStr}
    (h : ∀ x ∈ l, p x = false) : l.dropWhile p = l := by
  cases l with
  | nil => rfl
  | cons a t => simp [List.dropWhile_cons, h a (by simp)]

theorem trim_eq_self_of {s : PyStr} (h : ∀ x ∈ s, isSpaceCp x = false) :
    trim s = s := by
  unfold trim
  rw [dropWhile_eq_self_of h]
  rw [dropWhile_eq_self_of (by intro x hx; exact h x (List.mem_reverse.mp hx))]
  exact List.reverse_reverse s

theorem flatten_map_id_of_mem {f : Nat → List Nat} {l : PyStr}
    (h : ∀ x ∈ l, f x = [x]) : (l.map f).flatten = l := by
  induction l with
  | nil => rfl
  | cons a t ih =>
      rw [List.map_cons, List.flatten_cons, h a (by simp),
        ih (fun x hx => h x (by simp [hx]))]
      rfl

theorem mem_preprocess_text {x : Nat} {s : PyStr}
    (h130 : ∀ c ∈ s, c ≠ 0x130) (h : x ∈ preprocess_text s) :
    isWordCp x = true ∧ lowerCps x = [x] ∧ isSpaceCp x = false ∧
      x ≠ 0x130 := by
  unfold preprocess_text at h
  rw [List.mem_filter] at h
  obtain ⟨hmem, hns⟩ := h
  rw [Bool.not_eq_true'] at hns
  have hjoin := mem_of_mem_trim hmem
  rw [List.mem_flatten] at hjoin
  obtain ⟨w, hw2, hxw⟩ := hjoin
  rw [List.mem_map] at hw2
  obtain ⟨m, hm, hwm⟩ := hw2
  rw [List.mem_filter] at hm
  have hm130 : m ≠ 0x130 := h130 m hm.1
  rw [lowerCps, if_neg hm130] at hwm
  subst hwm
  simp only [List.mem_singleton] at hxw
  subst hxw
  have hm2 : isWordCp m = true ∨ isSpaceCp m = true := by
    have hb := hm.2
    simp only [Bool.or_eq_true] at hb
    exact hb
  rcases hm2 with hwd | hsp
  · obtain ⟨hw3, h1303, hfix⟩ := lower1_props m hwd hm130
    refine ⟨hw3, ?_, hns, h1303⟩
    rw [lowerCps, if_neg h1303, hfix]
  · rw [lower1_of_space m hsp] at hns
    rw [hsp] at hns
    simp at hns

/-- C8 counterexample: normalization is not idempotent as a universal
statement.  At the one-character string U+0130 ("İ"), `str.lower`
produces "i" followed by the combining dot above U+0307; the combining
dot survives the first pass (the `[^\w\s]` removal runs before
lowering) and is removed by the second, so the two applications
disagree. -/
theorem preprocess_text_not_idem :
    preprocess_text (preprocess_text [0x130]) ≠ preprocess_text [0x130] := by
  decide

/-- C8, amended: normalization is idempotent on every string that contains
no code point whose lowercase mapping expands to several code points — in
the modelled repertoire U+0130 is the only such character.  (The claim as
stated, for every string, fails at "İ"; see the counterexample above.) -/
theorem preprocess_text_idem_of_no_expanding (s : PyStr)
    (h130 : ∀ c ∈ s, c ≠ 0x130) :
    preprocess_text (preprocess_text s) = preprocess_text s := by
  have h1 : (preprocess_text s).filter (fun n => isWordCp n || isSpaceCp n) =
      preprocess_text s :=
    List.filter_eq_self.mpr
      (fun a ha => by simp [(mem_preprocess_text h130 ha).1])
  have h2 : ((preprocess_text s).map lowerCps).flatten = preprocess_text s :=
    flatten_map_id_of_mem (fun a ha => (mem_preprocess_text h130 ha).2.1)
  have h3 : trim (preprocess_text s) = preprocess_text s :=
    trim_eq_self_of (fun a ha => (mem_preprocess_text h130 ha).2.2.1)
  have h4 : (preprocess_text s).filter (fun n => !(isSpaceCp n)) =
      preprocess_text s :=
    List.filter_eq_self.mpr
      (fun a ha => by simp [(mem_preprocess_text h130 ha).2.2.1])
  conv_lhs => rw [preprocess_text, h1, h2, h3, h4]

/-- Instantiation of `preprocess_text_idem_of_no_expanding` at a concrete
input: the string "aB中" (no expanding code point). -/
theorem preprocess_text_idem_witness :
    (∀ c ∈ ([97, 66, 0x4E2D] : PyStr), c ≠ 0x130) ∧
    preprocess_text (preprocess_text [97, 66, 0x4E2D]) =
      preprocess_text [97, 66, 0x4E2D] :=
  ⟨by decide,
   preprocess_text_idem_of_no_expanding [97, 66, 0x4E2D] (by decide)⟩
/-! ### correct_ocr_errors length lemmas -/

theorem subst1_length (s : PyStr) : (subst1 s).length = s.length := by
  induction s using subst1.induct with
  | case1 a b rest h ih => simp only [subst1, h, if_true, List.length_cons, ih]
  | case2 a b rest h ih =>
      simp only [subst1, h, if_false, List.length_cons, ih, Bool.false_eq_true]
  | case3 s h1 => rw [subst1.eq_def]; split <;> simp_all

theorem subst2_length (s : PyStr) : (subst2 s).length = s.length := by
  induction s using subst2.induct with
  | case1 a b rest h ih => simp only [subst2, h, if_true, List.length_cons, ih]
  | case2 a b rest h ih =>
      simp only [subst2, h, if_false, List.length_cons, ih, Bool.false_eq_true]
  | case3 s h1 => rw [subst2.eq_def]; split <;> simp_all

theorem subst3_length (s : PyStr) : (subst3 s).length = s.length := by
  induction s using subst3.induct with
  | case1 => simp [subst3]
  | case2 a rest h ih =>
      have hlen : ((a :: rest).take 7).length = 7 := by
        have hcong := congrArg List.length h
        simpa [zhaxguiP] using hcong
      simp only [List.length_take, List.length_cons] at hlen
      rw [subst3, if_pos h]
      simp only [List.length_append, ih, List.length_drop, List.length_cons]
      have : zhaoguiR.length = 7 := rfl
      omega
  | case3 a rest h ih =>
      rw [subst3, if_neg h]
      simp only [List.length_cons, ih]

/-- C10: `correct_ocr_errors` is length-preserving — every substitution rule
replaces a matched span with a replacement of identical length — and hence
the length-below-2 exemption is unaffected by whether correction is applied
before or after measuring. -/
theorem correct_ocr_errors_length (s : PyStr) :
    (correct_ocr_errors s).length = s.length ∧
    ((correct_ocr_errors s).length < 2 ↔ s.length < 2) := by
  have h : (correct_ocr_errors s).length = s.length := by
    unfold correct_ocr_errors
    rw [subst3_length, subst2_length, subst1_length]
  exact ⟨h, by rw [h]⟩

/-! ### sliding_window_match: reference shorter than query -/

/-- C3: when the reference is shorter than the query, `sliding_window_match`
returns `(False, "", 0)` immediately, for every threshold, without scanning
any window. -/
theorem sliding_window_match_short_ref (q r : PyStr) (t : Nat)
    (h : r.length < q.length) :
    sliding_window_match q r t = (false, [], 0) := by
  simp [sliding_window_match, h]

/-- Instantiation of `sliding_window_match_short_ref` at a concrete input:
query "ab", empty reference, threshold 0. -/
theorem sliding_window_match_short_ref_witness :
    ([] : PyStr).length < ([97, 98] : PyStr).length ∧
    sliding_window_match [97, 98] [] 0 = (false, [], 0) :=
  ⟨by decide, sliding_window_match_short_ref [97, 98] [] 0 (by decide)⟩

/-! ### Short-query exemption -/

/-- C7: a processed query of length below 2 is always treated as matched:
`text_exists_in_any_doc` returns `True` for every corpus and threshold, the
guard firing before the document loop ever consults the matcher. -/
theorem text_exists_short_query (proc : PyStr) (h : proc.length < 2) :
    ∀ (docs : List PyStr) (t : Nat), text_exists_in_any_doc proc docs t = true := by
  intro docs t
  simp [text_exists_in_any_doc, h]

/-- Instantiation of `text_exists_short_query` at a concrete input: a
one-character query against a corpus whose single document cannot contain
it. -/
theorem text_exists_short_query_witness :
    ([97] : PyStr).length < 2 ∧ text_exists_in_any_doc [97] [[98]] 100 = true :=
  ⟨by decide, text_exists_short_query [97] (by decide) [[98]] 100⟩

/-! ### Similarity of a string with itself -/

theorem lcsAux_self (fuel : Nat) :
    ∀ x : PyStr, 2 * x.length ≤ fuel → lcsAux fuel x x = x.length := by
  induction fuel with
  | zero =>
      intro x hx
      have hx0 : x = [] := by
        cases x with
        | nil => rfl
        | cons a as => simp [List.length_cons] at hx
      subst hx0
      rfl
  | succ f ih =>
      intro x hx
      cases x with
      | nil => rfl
      | cons a as =>
          simp only [lcsAux, if_pos rfl]
          rw [ih as (by simp only [List.length_cons] at hx; omega)]
          simp

theorem fuzz_ratio_self (q : PyStr) : fuzz_ratio q q = 100 := by
  unfold fuzz_ratio
  split
  · rfl
  · rename_i h
    rw [lcsLen, lcsAux_self (q.length + q.length) q (by omega)]
    rw [show 200 * q.length = 100 * (q.length + q.length) by ring]
    exact Nat.mul_div_cancel 100 (by omega)

/-! ### The scanning loop -/

theorem ite_lt_eq_max (a b : Nat) : (if a < b then b else a) = max a b := by
  rcases Nat.lt_or_ge a b with h | h
  · rw [if_pos h, Nat.max_eq_right (Nat.le_of_lt h)]
  · rw [if_neg (by omega), Nat.max_eq_left h]

theorem swm_scan_hit (q r : PyStr) (t : Nat) :
    ∀ (fuel k i best : Nat), k < fuel →
      t ≤ winScore q r (i + k) →
      (∀ m, m < k → winScore q r (i + m) < t) →
      swm_scan q r t best i fuel =
        (true, windowAt r (i + k) q.length, winScore q r (i + k)) := by
  intro fuel
  induction fuel with
  | zero => intro k i best hk; omega
  | succ f ih =>
      intro k i best hk hhit hmin
      cases k with
      | zero =>
          simp only [Nat.add_zero] at hhit ⊢
          simp only [swm_scan, winScore] at hhit ⊢
          rw [if_pos hhit]
      | succ m =>
          have h0 : winScore q r i < t := by
            have := hmin 0 (by omega)
            simpa using this
          simp only [swm_scan]
          rw [if_neg (by simp only [winScore] at h0; omega)]
          have hhit2 : t ≤ winScore q r (i + 1 + m) := by
            rw [show i + 1 + m = i + (m + 1) by omega]
            exact hhit
          have hmin2 : ∀ m2, m2 < m → winScore q r (i + 1 + m2) < t := by
            intro m2 hm2
            rw [show i + 1 + m2 = i + (m2 + 1) by omega]
            exact hmin (m2 + 1) (by omega)
          rw [ih m (i + 1) _ (by omega) hhit2 hmin2]
          rw [show i + 1 + m = i + (m + 1) by omega]

theorem swm_scan_miss (q r : PyStr) (t : Nat) :
    ∀ (fuel i best : Nat), (∀ m, m < fuel → winScore q r (i + m) < t) →
      swm_scan q r t best i fuel =
        (decide (t ≤ max best (maxWinScore q r i fuel)), [],
          max best (maxWinScore q r i fuel)) := by
  intro fuel
  induction fuel with
  | zero => intro i best hmiss; simp [swm_scan, maxWinScore]
  | succ f ih =>
      intro i best hmiss
      have h0 : winScore q r i < t := by
        have := hmiss 0 (by omega)
        simpa using this
      simp only [swm_scan]
      rw [if_neg (by simp only [winScore] at h0; omega)]
      have hmiss2 : ∀ m, m < f → winScore q r (i + 1 + m) < t := by
        intro m hm
        rw [show i + 1 + m = i + (m + 1) by omega]
        exact hmiss (m + 1) (by omega)
      rw [ih (i + 1) _ hmiss2]
      simp only [maxWinScore, winScore, ite_lt_eq_max]
      rw [Nat.max_assoc]

theorem swm_scan_hit_exists (q r : PyStr) (t : Nat) :
    ∀ (fuel i best : Nat), (∃ k, k < fuel ∧ t ≤ winScore q r (i + k)) →
      (swm_scan q r t best i fuel).1 = true := by
  intro fuel
  induction fuel with
  | zero => intro i best ⟨k, hk, _⟩; omega
  | succ f ih =>
      intro i best ⟨k, hk, hhit⟩
      by_cases h0 : t ≤ winScore q r i
      · simp only [swm_scan, winScore] at h0 ⊢
        rw [if_pos h0]
      · simp only [swm_scan]
        rw [if_neg (by simp only [winScore] at h0; omega)]
        cases k with
        | zero => simp only [Nat.add_zero] at hhit; exact absurd hhit h0
        | succ m =>
            exact ih (i + 1) _ ⟨m, by omega, by
              rw [show i + 1 + m = i + (m + 1) by omega]; exact hhit⟩

theorem maxWinScore_ge (q r : PyStr) :
    ∀ (fuel i m : Nat), m < fuel →
      winScore q r (i + m) ≤ maxWinScore q r i fuel := by
  intro fuel
  induction fuel with
  | zero => intro i m hm; omega
  | succ f ih =>
      intro i m hm
      cases m with
      | zero => simp [maxWinScore, Nat.le_max_left]
      | succ m2 =>
          have := ih (i + 1) m2 (by omega)
          rw [show i + (m2 + 1) = i + 1 + m2 by omega]
          exact le_trans this (by simp [maxWinScore, Nat.le_max_right])

theorem maxWinScore_achieved (q r : PyStr) :
    ∀ (fuel i : Nat), 0 < fuel →
      ∃ m, m < fuel ∧ maxWinScore q r i fuel = winScore q r (i + m) := by
  intro fuel
  induction fuel with
  | zero => intro i h; omega
  | succ f ih =>
      intro i _
      cases Nat.eq_zero_or_pos f with
      | inl hf =>
          subst hf
          exact ⟨0, by omega, by simp [maxWinScore]⟩
      | inr hf =>
          obtain ⟨m, hm, hmax⟩ := ih (i + 1) hf
          rcases Nat.le_total (winScore q r i) (maxWinScore q r (i + 1) f) with hle | hle
          · refine ⟨m + 1, by omega, ?_⟩
            rw [show i + (m + 1) = i + 1 + m by omega, ← hmax]
            simp [maxWinScore, Nat.max_eq_right hle]
          · exact ⟨0, by omega, by simp [maxWinScore, Nat.max_eq_left hle]⟩

/-! ### Main matcher theorems -/

/-- C1: when some window reaches the threshold, `sliding_window_match`
returns `matched = true` together with the leftmost window reaching the
threshold (start index `i0`, scanning left to right) and the score of that
window; the scan stops at that window. -/
theorem sliding_window_match_first_hit (q r : PyStr) (t i0 : Nat)
    (hlen : q.length ≤ r.length)
    (hi0 : i0 ≤ r.length - q.length)
    (hhit : t ≤ winScore q r i0)
    (hmin : ∀ j, j < i0 → winScore q r j < t) :
    sliding_window_match q r t =
      (true, windowAt r i0 q.length, winScore q r i0) := by
  unfold sliding_window_match
  rw [if_neg (by omega)]
  have h := swm_scan_hit q r t (r.length - q.length + 1) i0 0 0 (by omega)
    (by simpa using hhit) (by intro m hm; simpa using hmin m hm)
  simpa using h

/-- Instantiation of `sliding_window_match_first_hit` at a concrete input:
query "ab" against reference "ccab" at threshold 100; the windows "cc" and
"ca" score below 100 and the window at start index 2 is "ab" with score
100. -/
theorem sliding_window_match_first_hit_witness :
    sliding_window_match [97, 98] [99, 99, 97, 98] 100 =
      (true, windowAt [99, 99, 97, 98] 2 2, winScore [97, 98] [99, 99, 97, 98] 2) :=
  sliding_window_match_first_hit [97, 98] [99, 99, 97, 98] 100 2
    (by decide) (by decide) (by decide) (by decide)

/-- C2: when no window reaches the threshold, `sliding_window_match`
returns `matched = (bestScore >= threshold)`, an empty window string, and
`bestScore` equal to the maximum similarity score over all windows (it
bounds every window score and is attained by one of them). -/
theorem sliding_window_match_no_hit (q r : PyStr) (t : Nat)
    (hlen : q.length ≤ r.length)
    (hmiss : ∀ i, i ≤ r.length - q.length → winScore q r i < t) :
    sliding_window_match q r t =
      (decide (t ≤ maxWinScore q r 0 (r.length - q.length + 1)), [],
        maxWinScore q r 0 (r.length - q.length + 1)) ∧
    (∀ i, i ≤ r.length - q.length →
      winScore q r i ≤ maxWinScore q r 0 (r.length - q.length + 1)) ∧
    (∃ i, i ≤ r.length - q.length ∧
      maxWinScore q r 0 (r.length - q.length + 1) = winScore q r i) := by
  refine ⟨?_, ?_, ?_⟩
  · unfold sliding_window_match
    rw [if_neg (by omega)]
    have h := swm_scan_miss q r t (r.length - q.length + 1) 0 0
      (by intro m hm; simpa using hmiss m (by omega))
    simpa using h
  · intro i hi
    have h := maxWinScore_ge q r (r.length - q.length + 1) 0 i (by omega)
    simpa using h
  · obtain ⟨m, hm, hmax⟩ :=
      maxWinScore_achieved q r (r.length - q.length + 1) 0 (by omega)
    exact ⟨m, by omega, by simpa using hmax⟩

/-- Instantiation of `sliding_window_match_no_hit` at a concrete input:
query "a" against reference "bc" at threshold 50; both windows score 0. -/
theorem sliding_window_match_no_hit_witness :
    (sliding_window_match [97] [98, 99] 50 =
      (decide (50 ≤ maxWinScore [97] [98, 99] 0 2), [],
        maxWinScore [97] [98, 99] 0 2) ∧
    (∀ i, i ≤ 1 → winScore [97] [98, 99] i ≤ maxWinScore [97] [98, 99] 0 2) ∧
    (∃ i, i ≤ 1 ∧ maxWinScore [97] [98, 99] 0 2 = winScore [97] [98, 99] i)) :=
  sliding_window_match_no_hit [97] [98, 99] 50 (by decide) (by decide)

/-- `matched` is true exactly when some window reaches the threshold
(given that the reference is at least as long as the query). -/
theorem swm_matched_iff (q r : PyStr) (t : Nat) (hlen : q.length ≤ r.length) :
    (sliding_window_match q r t).1 = true ↔
      ∃ i, i ≤ r.length - q.length ∧ t ≤ winScore q r i := by
  constructor
  · intro h
    by_contra hno
    push_neg at hno
    unfold sliding_window_match at h
    rw [if_neg (by omega)] at h
    rw [swm_scan_miss q r t (r.length - q.length + 1) 0 0
      (by intro m hm; simpa using hno m (by omega))] at h
    simp only [decide_eq_true_eq] at h
    obtain ⟨m, hm, hmax⟩ :=
      maxWinScore_achieved q r (r.length - q.length + 1) 0 (by omega)
    rw [Nat.zero_max, hmax] at h
    have := hno (0 + m) (by omega)
    omega
  · intro ⟨i, hi, hhit⟩
    unfold sliding_window_match
    rw [if_neg (by omega)]
    exact swm_scan_hit_exists q r t (r.length - q.length + 1) 0 0
      ⟨i, by omega, by simpa using hhit⟩

/-- C4: a query that is an exact contiguous substring of the reference
(both already normalized) is matched at threshold 100. -/
theorem sliding_window_match_substring (q r : PyStr)
    (h : ∃ u v, r = u ++ q ++ v) :
    (sliding_window_match q r 100).1 = true := by
  obtain ⟨u, v, rfl⟩ := h
  have hlen : q.length ≤ (u ++ q ++ v).length := by
    simp only [List.length_append]
    omega
  rw [swm_matched_iff _ _ _ hlen]
  refine ⟨u.length, ?_, ?_⟩
  · simp only [List.length_append]
    omega
  · have hwin : windowAt (u ++ q ++ v) u.length q.length = q := by
      unfold windowAt
      rw [List.append_assoc, List.drop_left, List.take_left]
    rw [winScore, hwin, fuzz_ratio_self]

/-- Instantiation of `sliding_window_match_substring` at a concrete input:
query "b" is a substring of reference "abc". -/
theorem sliding_window_match_substring_witness :
    (sliding_window_match [98] [97, 98, 99] 100).1 = true :=
  sliding_window_match_substring [98] [97, 98, 99] ⟨[97], [99], rfl⟩

/-- C5: threshold monotonicity — a match at threshold `t1` is still a match
at any threshold `t2 ≤ t1`. -/
theorem sliding_window_match_threshold_mono (q r : PyStr) (t1 t2 : Nat)
    (h2 : t2 ≤ t1) (h1 : (sliding_window_match q r t1).1 = true) :
    (sliding_window_match q r t2).1 = true := by
  by_cases hlen : r.length < q.length
  · rw [sliding_window_match, if_pos hlen] at h1
    simp at h1
  · have hlen2 : q.length ≤ r.length := by omega
    rw [swm_matched_iff _ _ _ hlen2] at h1 ⊢
    obtain ⟨i, hi, hhit⟩ := h1
    exact ⟨i, hi, le_trans h2 hhit⟩

/-- Instantiation of `sliding_window_match_threshold_mono` at a concrete
input: "a" matches in "a" at threshold 100, hence also at threshold 50. -/
theorem sliding_window_match_threshold_mono_witness :
    (sliding_window_match [97] [97] 50).1 = true :=
  sliding_window_match_threshold_mono [97] [97] 100 50 (by decide) (by decide)

/-! ### Any-document policy -/

theorem anyDocMatches_iff (proc : PyStr) (t : Nat) (docs : List PyStr) :
    anyDocMatches proc docs t = true ↔
      ∃ d ∈ docs, (sliding_window_match proc d t).1 = true := by
  induction docs with
  | nil => simp [anyDocMatches]
  | cons d rest ih =>
      rw [anyDocMatches]
      by_cases h1 : (sliding_window_match proc d t).1 = true
      · rw [if_pos h1]
        constructor
        · intro _
          exact ⟨d, List.mem_cons_self d rest, h1⟩
        · intro _
          rfl
      · rw [if_neg h1, ih]
        constructor
        · rintro ⟨d2, hm, hp⟩
          exact ⟨d2, List.mem_cons_of_mem d hm, hp⟩
        · rintro ⟨d2, hm, hp⟩
          rcases List.mem_cons.mp hm with he | hm2
          · subst he
            exact absurd hp h1
          · exact ⟨d2, hm2, hp⟩

/-- C6: for a processed query of length at least 2, `text_exists_in_any_doc`
returns `True` exactly when some document of the corpus (tested in corpus
order) yields a sliding-window match; once a matching document is present,
the documents after it cannot change the outcome (the loop short-circuits
at the first match). -/
theorem text_exists_any_doc_policy (proc : PyStr) (docs : List PyStr) (t : Nat)
    (h : 2 ≤ proc.length) :
    (text_exists_in_any_doc proc docs t = true ↔
      ∃ d ∈ docs, (sliding_window_match proc d t).1 = true) ∧
    (∀ (ds1 : List PyStr) (d : PyStr) (ds2 ds2' : List PyStr),
      (sliding_window_match proc d t).1 = true →
      text_exists_in_any_doc proc (ds1 ++ d :: ds2) t =
        text_exists_in_any_doc proc (ds1 ++ d :: ds2') t) := by
  have hguard : ¬ proc.length < 2 := by omega
  constructor
  · rw [text_exists_in_any_doc, if_neg hguard]
    exact anyDocMatches_iff proc t docs
  · intro ds1 d ds2 ds2' hd
    have e1 : text_exists_in_any_doc proc (ds1 ++ d :: ds2) t = true := by
      rw [text_exists_in_any_doc, if_neg hguard, anyDocMatches_iff]
      exact ⟨d, by simp, hd⟩
    have e2 : text_exists_in_any_doc proc (ds1 ++ d :: ds2') t = true := by
      rw [text_exists_in_any_doc, if_neg hguard, anyDocMatches_iff]
      exact ⟨d, by simp, hd⟩
    rw [e1, e2]

/-- Instantiation of `text_exists_any_doc_policy` at a concrete input:
query "ab" against the one-document corpus \x7b"ab"\x7d at threshold 100,
and the short-circuit clause applied with corpora that differ only after
the matching document. -/
theorem text_exists_any_doc_policy_witness :
    (text_exists_in_any_doc [97, 98] [[97, 98]] 100 = true ↔
      ∃ d ∈ [[97, 98]], (sliding_window_match [97, 98] d 100).1 = true) ∧
    text_exists_in_any_doc [97, 98] ([[99]] ++ [97, 98] :: [[100]]) 100 =
      text_exists_in_any_doc [97, 98] ([[99]] ++ [97, 98] :: []) 100 :=
  ⟨(text_exists_any_doc_policy [97, 98] [[97, 98]] 100 (by decide)).1,
   (text_exists_any_doc_policy [97, 98] [[99], [97, 98], [100]] 100
      (by decide)).2 [[99]] [97, 98] [[100]] [] (by decide)⟩

/-! ### Document aggregation -/

/-- C9: the aggregator keeps exactly the paragraphs that are non-empty
after trimming and do not start with the repeated-dash separator marker,
joins the surviving trimmed paragraphs with a single space in document
order, and normalizes the joined result. -/
theorem load_doc_text_spec (paras : List PyStr) :
    load_doc_text paras = preprocess_text (joinWithSpace (survivors paras)) := by
  suffices h : (paras.filter
      (fun p => !(trim p).isEmpty && !(sepMarker.isPrefixOf p))).map trim =
      survivors paras by
    rw [load_doc_text, h]
  induction paras with
  | nil => rfl
  | cons p rest ih =>
      rw [survivors]
      by_cases hp : trim p ≠ [] ∧ ¬ (sepMarker.isPrefixOf p = true)
      · rw [if_pos hp]
        rw [List.filter_cons_of_pos (by
          have h1 : (trim p).isEmpty = false := by
            rcases htp : trim p with _ | ⟨a, l⟩
            · exact absurd htp hp.1
            · rfl
          have h2 : sepMarker.isPrefixOf p = false := by
            cases hpre : sepMarker.isPrefixOf p
            · rfl
            · exact absurd hpre hp.2
          rw [h1, h2]
          rfl)]
        rw [List.map_cons, ih]
      · rw [if_neg hp]
        rw [List.filter_cons_of_neg (by
          intro hcon
          simp only [Bool.and_eq_true, Bool.not_eq_true'] at hcon
          apply hp
          constructor
          · intro he
            rw [he] at hcon
            simp at hcon
          · rw [hcon.2]
            simp)]
        exact ih
